import Mathlib

/-!
Shallow embedding of `sefaria_sdk/text_processing.py` (class `TextProcessor`)
and proofs about its four core functions: `extract_verses`, `format_hebrew`,
`get_parallel_texts`, `clean_text`.

Python dynamic values are modelled by the inductive type `PyVal`; Python
strings are Lean `String`s manipulated through their `List Char` data.
Operations that can raise a Python exception are modelled with
`Except String`, the error string naming the exception class.
-/

namespace SefariaSDK

/-- Characters for which Python's `str.strip()` / regex `\s` match: the
code points whose `str.isspace()` is true (U+0009..U+000D, U+001C..U+001F,
space, U+0085, U+00A0, U+1680, U+2000..U+200A, U+2028, U+2029, U+202F,
U+205F, U+3000). Note U+200F (the right-to-left mark) is NOT whitespace. -/
def pyIsSpace (c : Char) : Bool :=
  let n := c.toNat
  decide ((9 ≤ n ∧ n ≤ 13) ∨ (28 ≤ n ∧ n ≤ 31) ∨ n = 32 ∨ n = 133 ∨ n = 160 ∨
    n = 5760 ∨ (8192 ≤ n ∧ n ≤ 8202) ∨ n = 8232 ∨ n = 8233 ∨ n = 8239 ∨
    n = 8287 ∨ n = 12288)

/-- The Unicode right-to-left mark U+200F prepended by `format_hebrew`. -/
def rlm : Char := Char.ofNat 0x200F

/-- Drop leading Python whitespace (left part of `str.strip()`). -/
def lstrip (l : List Char) : List Char := l.dropWhile pyIsSpace

/-- Drop trailing Python whitespace (right part of `str.strip()`). -/
def rstrip (l : List Char) : List Char := (l.reverse.dropWhile pyIsSpace).reverse

/-- Python `str.strip()` on the character list: drop leading and trailing
whitespace. -/
def stripL (l : List Char) : List Char := rstrip (lstrip l)

/-- Python `str.strip()` on `String`. -/
def pyStrip (s : String) : String := String.mk (stripL s.toList)

/-- Splitter for `re.split(r"[\n\r]+", text)`: cut the character list at
every maximal run of `\n`/`\r` characters. A leading or trailing run
produces an empty segment, exactly as `re.split` does. -/
def isNl (c : Char) : Bool := c = '\n' || c = '\r'

def splitRuns : List Char → List (List Char)
  | [] => [[]]
  | c :: cs =>
    if isNl c then
      match cs, splitRuns cs with
      | d :: _, r => if isNl d then r else [] :: r
      | [], r => [] :: r
    else
      match splitRuns cs with
      | [] => [[c]]
      | t :: ts => (c :: t) :: ts

/-- `re.split(r"[\n\r]+", s)` on `String`. -/
def splitNl (s : String) : List String := (splitRuns s.toList).map String.mk

/-- `re.sub(r"\s+", " ", text)`: replace each maximal whitespace run by a
single ASCII space. -/
def collapseWs : List Char → List Char
  | [] => []
  | c :: cs =>
    if pyIsSpace c then
      match cs with
      | d :: _ => if pyIsSpace d then collapseWs cs else ' ' :: collapseWs cs
      | [] => [' ']
    else c :: collapseWs cs

/-- The punctuation class `[.,;:!?]` of `clean_text`'s second regex. -/
def isPunct (c : Char) : Bool :=
  c = '.' || c = ',' || c = ';' || c = ':' || c = '!' || c = '?'

/-- `re.sub(r"\s*([.,;:!?])", r"\1", text)`: a whitespace character is
deleted exactly when the next non-whitespace character after it is one of
the punctuation marks; everything else is kept unchanged. -/
def subPunct : List Char → List Char
  | [] => []
  | c :: cs =>
    if pyIsSpace c then
      (match cs.dropWhile pyIsSpace with
       | p :: _ => if isPunct p then subPunct cs else c :: subPunct cs
       | [] => c :: subPunct cs)
    else c :: subPunct cs

/-- A Python dynamic value, covering the value shapes the module handles:
`None`, booleans, integers, strings, lists and (string-keyed) dicts. -/
inductive PyVal where
  | none
  | bool (b : Bool)
  | int (n : Int)
  | str (s : String)
  | list (xs : List PyVal)
  | dict (kvs : List (String × PyVal))

/-- Python truthiness (`if v:`): `None`, `False`, `0`, `""`, `[]`, and
the empty dict are falsy; everything else is truthy. -/
def pyTruthy : PyVal → Bool
  | .none => false
  | .bool b => b
  | .int n => decide (n ≠ 0)
  | .str s => decide (s ≠ "")
  | .list [] => false
  | .list (_ :: _) => true
  | .dict [] => false
  | .dict (_ :: _) => true

/-- Whether a value is a Python `dict` (`isinstance(v, dict)`). -/
def PyVal.isDict : PyVal → Bool
  | .dict _ => true
  | _ => false

mutual

/-- Python `repr` for the modelled values (used by `str` on containers).
String escaping inside `repr` is not modelled; no claim depends on it. -/
def pyRepr : PyVal → String
  | .none => "None"
  | .bool true => "True"
  | .bool false => "False"
  | .int n => toString n
  | .str s => "'" ++ s ++ "'"
  | .list xs => "[" ++ pyReprItems xs ++ "]"
  | .dict kvs => "\x7b" ++ pyReprEntries kvs ++ "\x7d"

/-- Comma-separated `repr`s of the items of a Python list. -/
def pyReprItems : List PyVal → String
  | [] => ""
  | [x] => pyRepr x
  | x :: xs => pyRepr x ++ ", " ++ pyReprItems xs

/-- Comma-separated `'key': repr(value)` entries of a Python dict. -/
def pyReprEntries : List (String × PyVal) → String
  | [] => ""
  | [(k, v)] => "'" ++ k ++ "': " ++ pyRepr v
  | (k, v) :: kvs => "'" ++ k ++ "': " ++ pyRepr v ++ ", " ++ pyReprEntries kvs

end

/-- Python `str(v)`: the string itself for strings, `repr`-like text for
everything else (`str(None) = "None"`, `str(123) = "123"`, ...). -/
def pyStr : PyVal → String
  | .none => "None"
  | .bool true => "True"
  | .bool false => "False"
  | .int n => toString n
  | .str s => s
  | .list xs => pyRepr (.list xs)
  | .dict kvs => pyRepr (.dict kvs)

/-- First-match association lookup, modelling `d[k]` / `k in d` /
`d.get(k, default)` on a Python dict with string keys. -/
def alookup : List (String × PyVal) → String → Option PyVal
  | [], _ => Option.none
  | (k, v) :: rest, key => if k = key then Option.some v else alookup rest key

/-- The key-probing part of `TextProcessor.extract_verses` (lines 34-44):
`text = text_data["text"]` if present, else `text_data["he"]`, else — when
`"versions" in text_data and text_data["versions"]` — the expression
`text_data["versions"][0].get("text", [])`, which raises when `versions`
is truthy but not a list, or its first item is not a dict. When no branch
fires, `text` stays `None`. -/
def resolve_text (kvs : List (String × PyVal)) : Except String PyVal :=
  match alookup kvs "text" with
  | Option.some t => Except.ok t
  | Option.none =>
    match alookup kvs "he" with
    | Option.some t => Except.ok t
    | Option.none =>
      match alookup kvs "versions" with
      | Option.some vv =>
        if pyTruthy vv then
          match vv with
          | .list (PyVal.dict d :: _) =>
              Except.ok ((alookup d "text").getD (PyVal.list []))
          | .list (_ :: _) => Except.error "AttributeError"
          | .str _ => Except.error "AttributeError"
          | .dict _ => Except.error "KeyError"
          | _ => Except.error "TypeError"
        else Except.ok PyVal.none
      | Option.none => Except.ok PyVal.none

/-- The format-handling part of `TextProcessor.extract_verses` (lines
47-55): a list becomes `[str(verse).strip() for verse in text if verse and
str(verse).strip()]`, a string is split on line-break runs and the
segments stripped and filtered, anything else yields `[]`. -/
def normalize_text : PyVal → List String
  | .list xs =>
      (xs.filter
        (fun v => pyTruthy v && decide (pyStrip (pyStr v) ≠ ""))).map
        (fun v => pyStrip (pyStr v))
  | .str s =>
      ((splitNl s).filter
        (fun v => decide (v ≠ "") && decide (pyStrip v ≠ ""))).map pyStrip
  | _ => []

/-- `TextProcessor.extract_verses`: non-dict input returns `[]`; a dict is
resolved by `resolve_text` and normalized by `normalize_text`; a raised
exception propagates. -/
def extract_verses : PyVal → Except String (List String)
  | .dict kvs => (resolve_text kvs).map normalize_text
  | _ => Except.ok []

/-- `TextProcessor.format_hebrew` on the character list of a non-`None`
string: empty input returns empty; otherwise the RTL marker U+200F is
prepended unless already present, and the result is stripped. -/
def format_hebrew_l : List Char → List Char
  | [] => []
  | c :: cs => if c = rlm then stripL (c :: cs) else stripL (rlm :: c :: cs)

/-- `TextProcessor.format_hebrew` on `String` arguments. -/
def format_hebrew (s : String) : String := String.mk (format_hebrew_l s.toList)

/-- `TextProcessor.format_hebrew` on an arbitrary value: falsy input
returns `""` (the `if not text` guard); a truthy non-string raises
`AttributeError` at `text.startswith("‏")`. -/
def format_hebrew_py : PyVal → Except String String
  | .str s => Except.ok (format_hebrew s)
  | v => if pyTruthy v then Except.error "AttributeError" else Except.ok ""

/-- `TextProcessor.clean_text` on `String` arguments: collapse whitespace
runs to one space, delete whitespace before `[.,;:!?]`, then strip. -/
def clean_text (s : String) : String :=
  if s = "" then "" else String.mk (stripL (subPunct (collapseWs s.toList)))

/-- `TextProcessor.clean_text` on an arbitrary value: falsy input returns
`""`; a truthy non-string raises `TypeError` inside `re.sub`. -/
def clean_text_py : PyVal → Except String String
  | .str s => Except.ok (clean_text s)
  | v => if pyTruthy v then Except.error "TypeError" else Except.ok ""

/-- The input coercion of `TextProcessor.get_parallel_texts` (lines
106-110 plus the iteration): a string is wrapped into a one-element list,
a list iterates over its items, a dict iterates over its keys, and any
non-iterable value raises `TypeError`. -/
def toVerseList : PyVal → Except String (List PyVal)
  | .str s => Except.ok [PyVal.str s]
  | .list xs => Except.ok xs
  | .dict kvs => Except.ok (kvs.map (fun kv => PyVal.str kv.1))
  | _ => Except.error "TypeError"

/-- `hebrew = [TextProcessor.format_hebrew(str(verse)) for verse in hebrew
if verse]` (line 113). -/
def filteredSource (hs : List PyVal) : List String :=
  (hs.filter pyTruthy).map (fun v => format_hebrew (pyStr v))

/-- `english = [str(verse).strip() for verse in english if verse]`
(line 114). -/
def filteredTarget (es : List PyVal) : List String :=
  (es.filter pyTruthy).map (fun v => pyStrip (pyStr v))

/-- The pairing loop of `get_parallel_texts` (lines 117-125): for `i` in
`range(max(len(hebrew), len(english)))`, pair the `i`-th elements,
substituting `""` past a list's end. -/
def pairUp (hs es : List String) : List (String × String) :=
  (List.range (max hs.length es.length)).map
    (fun i => (hs.getD i "", es.getD i ""))

/-- `TextProcessor.get_parallel_texts` after the input coercion: filter
and transform both sides, then pair positionally. -/
def get_parallel_texts_core (hs es : List PyVal) : List (String × String) :=
  pairUp (filteredSource hs) (filteredTarget es)

/-- `TextProcessor.get_parallel_texts` on arbitrary values. -/
def get_parallel_texts (hebrew english : PyVal) :
    Except String (List (String × String)) := do
  let hs ← toVerseList hebrew
  let es ← toVerseList english
  pure (get_parallel_texts_core hs es)

/-! ### Helper lemmas about stripping and the RTL marker -/

theorem dropWhile_head_neg {α} (p : α → Bool) :
    ∀ (l : List α) {c : α} {t : List α}, l.dropWhile p = c :: t → p c = false := by
  intro l
  induction l with
  | nil => intro c t h; simp [List.dropWhile] at h
  | cons a as ih =>
    intro c t h
    by_cases ha : p a
    · rw [List.dropWhile_cons_of_pos ha] at h
      exact ih h
    · rw [List.dropWhile_cons_of_neg ha] at h
      cases h
      simpa using ha

theorem dropWhile_idem {α} (p : α → Bool) (l : List α) :
    (l.dropWhile p).dropWhile p = l.dropWhile p := by
  cases h : l.dropWhile p with
  | nil => rfl
  | cons c t =>
    have hc := dropWhile_head_neg p l h
    rw [List.dropWhile_cons_of_neg (by simp [hc])]

theorem rstrip_rstrip (l : List Char) : rstrip (rstrip l) = rstrip l := by
  unfold rstrip
  rw [List.reverse_reverse, dropWhile_idem]

theorem dropWhile_append_last {α} {p : α → Bool} {c : α} (hc : p c = false)
    (ys : List α) : ∃ zs, (ys ++ [c]).dropWhile p = zs ++ [c] := by
  rw [List.dropWhile_append]
  by_cases h : (ys.dropWhile p).isEmpty
  · simp only [h, if_true]
    have hc' : ¬ p c := by simp [hc]
    exact ⟨[], by rw [List.dropWhile_cons_of_neg hc']; rfl⟩
  · simp only [h, if_false]
    exact ⟨ys.dropWhile p, rfl⟩

theorem rstrip_cons {c : Char} (hc : pyIsSpace c = false) (t : List Char) :
    ∃ zs, rstrip (c :: t) = c :: zs := by
  unfold rstrip
  rw [List.reverse_cons]
  obtain ⟨zs, hzs⟩ := dropWhile_append_last hc t.reverse
  rw [hzs, List.reverse_append]
  exact ⟨zs.reverse, by simp⟩

theorem lstrip_cons {c : Char} (hc : pyIsSpace c = false) (t : List Char) :
    lstrip (c :: t) = c :: t :=
  List.dropWhile_cons_of_neg (by simp [hc])

theorem stripL_cons_eq_rstrip {c : Char} (hc : pyIsSpace c = false)
    (t : List Char) : stripL (c :: t) = rstrip (c :: t) := by
  unfold stripL
  rw [lstrip_cons hc]

theorem pyIsSpace_rlm : pyIsSpace rlm = false := by decide

theorem format_hebrew_l_cons (c : Char) (cs : List Char) :
    format_hebrew_l (c :: cs) =
      rstrip (rlm :: (if c = rlm then cs else c :: cs)) := by
  unfold format_hebrew_l
  by_cases h : c = rlm
  · subst h
    simp [stripL_cons_eq_rstrip pyIsSpace_rlm]
  · simp [h, stripL_cons_eq_rstrip pyIsSpace_rlm]

theorem format_hebrew_l_shape (c : Char) (cs : List Char) :
    ∃ zs, format_hebrew_l (c :: cs) = rlm :: zs ∧
      format_hebrew_l (c :: cs) = rstrip (format_hebrew_l (c :: cs)) := by
  rw [format_hebrew_l_cons]
  obtain ⟨zs, hzs⟩ := rstrip_cons pyIsSpace_rlm (if c = rlm then cs else c :: cs)
  exact ⟨zs, hzs, (rstrip_rstrip _).symm⟩

theorem format_hebrew_l_idem (l : List Char) :
    format_hebrew_l (format_hebrew_l l) = format_hebrew_l l := by
  cases l with
  | nil => rfl
  | cons c cs =>
    obtain ⟨zs, hshape, hrst⟩ := format_hebrew_l_shape c cs
    rw [hshape]
    have h1 : format_hebrew_l (rlm :: zs) = stripL (rlm :: zs) := by
      simp [format_hebrew_l]
    rw [h1, stripL_cons_eq_rstrip pyIsSpace_rlm, ← hshape]
    exact hrst.symm

theorem format_hebrew_empty_or_rlm (s : String) :
    format_hebrew s = "" ∨ (format_hebrew s).toList.head? = some rlm := by
  cases hl : s.toList with
  | nil =>
    left
    show String.mk (format_hebrew_l s.toList) = ""
    rw [hl]
    rfl
  | cons c cs =>
    right
    show (String.mk (format_hebrew_l s.toList)).toList.head? = some rlm
    rw [hl]
    obtain ⟨zs, hshape, _⟩ := format_hebrew_l_shape c cs
    rw [hshape]
    rfl

theorem string_eq_empty_of_toList_nil {s : String} (h : s.toList = []) :
    s = "" :=
  String.ext (by simpa using h)

/-! ### Helper lemmas about extraction and pairing -/

theorem extract_verses_of_not_dict :
    ∀ v : PyVal, v.isDict = false → extract_verses v = Except.ok [] := by
  intro v h
  cases v <;> first | rfl | simp [PyVal.isDict] at h

theorem filter_map_eq_filterMap {α β} (p : α → Bool) (f : α → β) (l : List α) :
    (l.filter p).map f =
      l.filterMap (fun v => if p v then some (f v) else none) := by
  induction l with
  | nil => rfl
  | cons a l ih =>
    by_cases h : p a <;> simp [List.filter_cons, List.filterMap_cons, h, ih]

theorem filter_strip_comm (L : List String) :
    (L.filter (fun v => decide (v ≠ "") && decide (pyStrip v ≠ ""))).map pyStrip
      = (L.map pyStrip).filter (fun t => decide (t ≠ "")) := by
  induction L with
  | nil => rfl
  | cons a L ih =>
    by_cases h : pyStrip a = ""
    · simp [List.filter_cons, h]
      simpa using ih
    · have hane : a ≠ "" := by
        intro he
        rw [he] at h
        exact h rfl
      simp [List.filter_cons, h, hane]
      simpa using ih

theorem pairUp_length (hs es : List String) :
    (pairUp hs es).length = max hs.length es.length := by
  simp [pairUp]

theorem pairUp_getD (hs es : List String) (i : ℕ)
    (h : i < max hs.length es.length) :
    (pairUp hs es).getD i ("", "") = (hs.getD i "", es.getD i "") := by
  unfold pairUp
  have hlen : i < ((List.range (max hs.length es.length)).map
      (fun i => (hs.getD i "", es.getD i ""))).length := by
    simpa using h
  rw [List.getD_eq_getElem _ _ hlen]
  simp

theorem getD_map_empty (f : String → String) (hf : f "" = "")
    (L : List String) (i : ℕ) : (L.map f).getD i "" = f (L.getD i "") := by
  conv_lhs => rw [← hf]
  exact List.getD_map L "" f

theorem filteredSource_of_strings (H : List String) (hH : ∀ s ∈ H, s ≠ "") :
    filteredSource (H.map PyVal.str) = H.map format_hebrew := by
  unfold filteredSource
  rw [List.filter_map]
  have : H.filter (pyTruthy ∘ PyVal.str) = H := by
    rw [List.filter_eq_self]
    intro a ha
    simpa [pyTruthy] using hH a ha
  rw [this, List.map_map]
  rfl

theorem filteredTarget_of_strings (E : List String) (hE : ∀ s ∈ E, s ≠ "") :
    filteredTarget (E.map PyVal.str) = E.map pyStrip := by
  unfold filteredTarget
  rw [List.filter_map]
  have : E.filter (pyTruthy ∘ PyVal.str) = E := by
    rw [List.filter_eq_self]
    intro a ha
    simpa [pyTruthy] using hE a ha
  rw [this, List.map_map]
  rfl

theorem mem_filteredSource {hs : List PyVal} {x : String}
    (hx : x ∈ filteredSource hs) : ∃ v, x = format_hebrew (pyStr v) := by
  unfold filteredSource at hx
  obtain ⟨v, -, rfl⟩ := List.mem_map.mp hx
  exact ⟨v, rfl⟩

theorem get_parallel_texts_ok {hebrew english : PyVal}
    {r : List (String × String)}
    (hr : get_parallel_texts hebrew english = Except.ok r) :
    ∃ hs es, r = get_parallel_texts_core hs es := by
  cases hebrew <;> cases english <;>
    first
      | exact ⟨_, _, (Except.ok.inj hr).symm⟩
      | exact Except.noConfusion hr

/-! ### Claim theorems -/

/-- Claim C1, counterexample: the four core functions are NOT total for
every input. A truthy non-string input makes `format_hebrew` raise
`AttributeError` (no `startswith` on `int`) and `clean_text` raise
`TypeError` (inside `re.sub`); a dict whose `versions` value is a truthy
non-sequence makes `extract_verses` raise; a non-iterable argument makes
`get_parallel_texts` raise. -/
theorem c1_totality_counterexample :
    format_hebrew_py (PyVal.int 123) = Except.error "AttributeError" ∧
    clean_text_py (PyVal.int 123) = Except.error "TypeError" ∧
    extract_verses (PyVal.dict [("versions", PyVal.int 5)]) =
      Except.error "TypeError" ∧
    get_parallel_texts (PyVal.int 1) (PyVal.list []) =
      Except.error "TypeError" :=
  ⟨rfl, rfl, rfl, rfl⟩

/-- Claim C1, amended: each core function is total on its handled input
shapes — `extract_verses` never raises on any non-mapping value
(returning `[]`), `format_hebrew` and `clean_text` never raise on string
or falsy values (falsy gives `""`), and `get_parallel_texts` never raises
on string or list inputs — but wrong-typed truthy values can raise. -/
theorem c1_totality_amended :
    (∀ v : PyVal, v.isDict = false → extract_verses v = Except.ok []) ∧
    (∀ s : String, format_hebrew_py (PyVal.str s) =
      Except.ok (format_hebrew s)) ∧
    (∀ s : String, clean_text_py (PyVal.str s) = Except.ok (clean_text s)) ∧
    (∀ hs es : List PyVal, get_parallel_texts (PyVal.list hs) (PyVal.list es)
      = Except.ok (get_parallel_texts_core hs es)) ∧
    (∀ s t : String, get_parallel_texts (PyVal.str s) (PyVal.str t)
      = Except.ok (get_parallel_texts_core [PyVal.str s] [PyVal.str t])) ∧
    format_hebrew_py PyVal.none = Except.ok "" ∧
    clean_text_py PyVal.none = Except.ok "" ∧
    extract_verses PyVal.none = Except.ok [] :=
  ⟨extract_verses_of_not_dict, fun _ => rfl, fun _ => rfl,
   fun _ _ => rfl, fun _ _ => rfl, rfl, rfl, rfl⟩

/-- Claim C1, witness for the amended theorem at a concrete non-mapping
input. -/
theorem c1_totality_witness : extract_verses (PyVal.int 3) = Except.ok [] :=
  c1_totality_amended.1 (PyVal.int 3) rfl

/-- Claim C2: `extract_verses` resolves the `text` key first; if it is
absent, the `he` key; only if both are absent and `versions` is a
non-empty sequence does it resolve the first version-record's `text`
field, defaulting to an empty sequence; with none of the keys (or an
empty `versions` list) nothing is resolved. -/
theorem c2_resolution_order (kvs : List (String × PyVal)) :
    extract_verses (PyVal.dict kvs) = (resolve_text kvs).map normalize_text ∧
    (∀ t, alookup kvs "text" = some t → resolve_text kvs = Except.ok t) ∧
    (∀ t, alookup kvs "text" = Option.none → alookup kvs "he" = some t →
      resolve_text kvs = Except.ok t) ∧
    (∀ d rest, alookup kvs "text" = Option.none →
      alookup kvs "he" = Option.none →
      alookup kvs "versions" = some (PyVal.list (PyVal.dict d :: rest)) →
      resolve_text kvs = Except.ok ((alookup d "text").getD (PyVal.list []))) ∧
    (alookup kvs "text" = Option.none → alookup kvs "he" = Option.none →
      (alookup kvs "versions" = Option.none ∨
        alookup kvs "versions" = some (PyVal.list [])) →
      resolve_text kvs = Except.ok PyVal.none) := by
  refine ⟨rfl, ?_, ?_, ?_, ?_⟩
  · intro t h
    simp [resolve_text, h]
  · intro t h1 h2
    simp [resolve_text, h1, h2]
  · intro d rest h1 h2 h3
    simp [resolve_text, h1, h2, h3, pyTruthy]
  · intro h1 h2 h3
    cases h3 with
    | inl hv => simp [resolve_text, h1, h2, hv]
    | inr hv => simp [resolve_text, h1, h2, hv, pyTruthy]

/-- Claim C2, witness: with all three keys present, `text` wins. -/
theorem c2_witness :
    resolve_text [("text", PyVal.str "T"), ("he", PyVal.str "H"),
      ("versions", PyVal.list [PyVal.dict [("text", PyVal.str "V")]])] =
      Except.ok (PyVal.str "T") :=
  (c2_resolution_order [("text", PyVal.str "T"), ("he", PyVal.str "H"),
    ("versions", PyVal.list [PyVal.dict [("text", PyVal.str "V")]])]).2.1
    (PyVal.str "T") rfl

/-- Claim C3, counterexample: a falsy element whose trimmed string
representation is non-empty is dropped, so "kept if and only if the
trimmed result is non-empty" fails. `None` stringifies to `"None"`
(trimmed, non-empty) yet `extract_verses` drops it — the code's own test
(`test_extract_verses_mixed_types`) expects exactly this. -/
theorem c3_counterexample :
    extract_verses (PyVal.dict [("text", PyVal.list [PyVal.none])]) =
      Except.ok [] ∧
    pyStrip (pyStr PyVal.none) = "None" :=
  ⟨rfl, rfl⟩

/-- Claim C3, amended: for a sequence-valued `text`, each element is kept
if and only if it is truthy AND its trimmed string representation is
non-empty; kept elements appear as their trimmed string representations
in order, and the `["a", "", "  ", "b"]` example yields `["a", "b"]`. -/
theorem c3_list_normalization_amended (xs : List PyVal) :
    extract_verses (PyVal.dict [("text", PyVal.list xs)]) =
      Except.ok (xs.filterMap (fun v =>
        if pyTruthy v && decide (pyStrip (pyStr v) ≠ "")
        then some (pyStrip (pyStr v)) else none)) ∧
    extract_verses (PyVal.dict [("text", PyVal.list
        [PyVal.str "a", PyVal.str "", PyVal.str "  ", PyVal.str "b"])]) =
      Except.ok ["a", "b"] := by
  constructor
  · show Except.ok (normalize_text (PyVal.list xs)) = _
    exact congrArg Except.ok (filter_map_eq_filterMap _ _ xs)
  · rfl

/-- Claim C4: for a string-valued `text`, `extract_verses` splits on
maximal runs of `\n`/`\r`, trims each segment and keeps exactly the
non-empty trimmed segments in order; the `"a\nb\n\nc"` example yields
`["a", "b", "c"]`; and any non-mapping input yields `[]`. -/
theorem c4_string_split (s : String) :
    extract_verses (PyVal.dict [("text", PyVal.str s)]) =
      Except.ok (((splitNl s).map pyStrip).filter (fun t => decide (t ≠ ""))) ∧
    extract_verses (PyVal.dict [("text", PyVal.str "a\nb\n\nc")]) =
      Except.ok ["a", "b", "c"] ∧
    (∀ v : PyVal, v.isDict = false → extract_verses v = Except.ok []) := by
  refine ⟨?_, rfl, extract_verses_of_not_dict⟩
  show Except.ok (normalize_text (PyVal.str s)) = _
  exact congrArg Except.ok (filter_strip_comm (splitNl s))

/-- Claim C4, witness: the non-mapping clause at the input `None`. -/
theorem c4_witness : extract_verses PyVal.none = Except.ok [] :=
  (c4_string_split "").2.2 PyVal.none rfl

/-- Claim C5: `clean_text` is exactly whitespace-run collapsing, then
deletion of whitespace before `. , ; : ! ?`, then strip; empty and null
inputs give `""`; and the spec's messy-spaces example holds. -/
theorem c5_clean_text_pipeline :
    (∀ s : String,
      clean_text s = pyStrip (String.mk (subPunct (collapseWs s.toList)))) ∧
    clean_text "" = "" ∧
    clean_text_py PyVal.none = Except.ok "" ∧
    clean_text "This   is  a  messy    text   with extra   spaces  ." =
      "This is a messy text with extra spaces." := by
  refine ⟨?_, rfl, rfl, rfl⟩
  intro s
  by_cases h : s = ""
  · subst h
    rfl
  · unfold clean_text
    rw [if_neg h]
    rfl

/-- Claim C6: `format_hebrew` is idempotent; the RTL marker U+200F is
prepended exactly when the string does not already begin with it,
stripping is the final step, and the marker itself is never stripped (a
non-empty input always produces output beginning with the marker). -/
theorem c6_format_hebrew_idempotent (s : String) :
    format_hebrew (format_hebrew s) = format_hebrew s ∧
    (s.toList.head? = some rlm → format_hebrew s = pyStrip s) ∧
    (s ≠ "" → s.toList.head? ≠ some rlm →
      format_hebrew s = pyStrip (String.mk (rlm :: s.toList))) ∧
    (s ≠ "" → (format_hebrew s).toList.head? = some rlm) := by
  refine ⟨congrArg String.mk (format_hebrew_l_idem s.toList), ?_, ?_, ?_⟩
  · intro h
    cases hl : s.toList with
    | nil =>
      rw [hl] at h
      exact Option.noConfusion h
    | cons c cs =>
      rw [hl] at h
      have hc : c = rlm := Option.some.inj h
      subst hc
      show String.mk (format_hebrew_l s.toList) = String.mk (stripL s.toList)
      rw [hl]
      exact congrArg String.mk (by simp [format_hebrew_l])
  · intro hne hh
    cases hl : s.toList with
    | nil => exact absurd (string_eq_empty_of_toList_nil hl) hne
    | cons c cs =>
      rw [hl] at hh
      have hc : ¬ c = rlm := by
        intro he
        exact hh (by rw [he]; rfl)
      show String.mk (format_hebrew_l s.toList) =
        String.mk (stripL (rlm :: c :: cs))
      rw [hl]
      exact congrArg String.mk (by simp [format_hebrew_l, hc])
  · intro hne
    cases hl : s.toList with
    | nil => exact absurd (string_eq_empty_of_toList_nil hl) hne
    | cons c cs =>
      obtain ⟨zs, hshape, -⟩ := format_hebrew_l_shape c cs
      show (String.mk (format_hebrew_l s.toList)).toList.head? = some rlm
      rw [hl, hshape]
      rfl

/-- Claim C6, witness: idempotence and the marker behavior at concrete
Hebrew strings. -/
theorem c6_witness :
    format_hebrew (format_hebrew "א") = format_hebrew "א" ∧
    format_hebrew "‏ב" = pyStrip "‏ב" ∧
    format_hebrew " א" = pyStrip (String.mk (rlm :: " א".toList)) ∧
    (format_hebrew "א").toList.head? = some rlm :=
  ⟨(c6_format_hebrew_idempotent "א").1,
   (c6_format_hebrew_idempotent "‏ב").2.1 rfl,
   (c6_format_hebrew_idempotent " א").2.2.1 (by decide) (by decide),
   (c6_format_hebrew_idempotent "א").2.2.2 (by decide)⟩

/-- Claim C7, counterexample: a whitespace-only verse is NOT removed
before pairing — only falsy elements are. The Hebrew verse `"  "` is
truthy, survives the filter, and becomes the bare marker `"‏"` in the
output, where the claim demands its removal (which would pair `""` with
`"x"`). -/
theorem c7_counterexample :
    get_parallel_texts (PyVal.list [PyVal.str "  "])
        (PyVal.list [PyVal.str "x"]) =
      Except.ok [("‏", "x")] ∧
    ("‏" : String) ≠ "" :=
  ⟨rfl, by decide⟩

/-- Claim C7, amended: both inputs are filtered before any pairing, but
the filter drops exactly the falsy elements (null, empty string, zero,
empty sequence); whitespace-only strings are truthy and stay, becoming
`"‏"` on the source side and `""` on the target side. -/
theorem c7_filtering_amended (hs es : List PyVal) :
    get_parallel_texts_core hs es =
      pairUp ((hs.filter pyTruthy).map (fun v => format_hebrew (pyStr v)))
        ((es.filter pyTruthy).map (fun v => pyStrip (pyStr v))) ∧
    (∀ v, v ∈ hs.filter pyTruthy → pyTruthy v = true) ∧
    (∀ v, v ∈ es.filter pyTruthy → pyTruthy v = true) ∧
    get_parallel_texts_core [PyVal.str " "] [PyVal.str "x"] =
      [("‏", "x")] := by
  refine ⟨rfl, ?_, ?_, rfl⟩ <;> intro v hv <;> exact List.of_mem_filter hv

/-- Claim C7, witness for the amended theorem: a surviving element is
truthy. -/
theorem c7_witness : pyTruthy (PyVal.str "a") = true :=
  (c7_filtering_amended [PyVal.str "a"] []).2.1 (PyVal.str "a")
    (by exact List.mem_cons_self _ _)

/-- Claim C8: the output of `get_parallel_texts` has length
`max(filteredSourceLength, filteredTargetLength)`; pair `i` is exactly
the positional pair of the post-filter sequences, with `""` substituted
at or beyond a side's length; strings are handled as one-element
sequences; and two empty inputs give an empty output. -/
theorem c8_output_shape (hs es : List PyVal) :
    (get_parallel_texts_core hs es).length =
      max (filteredSource hs).length (filteredTarget es).length ∧
    (∀ i, i < max (filteredSource hs).length (filteredTarget es).length →
      (get_parallel_texts_core hs es).getD i ("", "") =
        ((filteredSource hs).getD i "", (filteredTarget es).getD i "")) ∧
    (∀ i, (filteredSource hs).length ≤ i →
      ((get_parallel_texts_core hs es).getD i ("", "")).1 = "") ∧
    (∀ i, (filteredTarget es).length ≤ i →
      ((get_parallel_texts_core hs es).getD i ("", "")).2 = "") ∧
    (∀ s t : String, get_parallel_texts (PyVal.str s) (PyVal.str t) =
      Except.ok (get_parallel_texts_core [PyVal.str s] [PyVal.str t])) ∧
    get_parallel_texts (PyVal.list []) (PyVal.list []) = Except.ok [] := by
  refine ⟨pairUp_length _ _, fun i hi => pairUp_getD _ _ i hi, ?_, ?_,
    fun _ _ => rfl, rfl⟩
  · intro i hi
    show ((pairUp (filteredSource hs) (filteredTarget es)).getD i
      ("", "")).1 = ""
    by_cases h : i < max (filteredSource hs).length (filteredTarget es).length
    · rw [pairUp_getD _ _ i h]
      exact List.getD_eq_default _ _ hi
    · rw [List.getD_eq_default _ _ (by rw [pairUp_length]; omega)]
  · intro i hi
    show ((pairUp (filteredSource hs) (filteredTarget es)).getD i
      ("", "")).2 = ""
    by_cases h : i < max (filteredSource hs).length (filteredTarget es).length
    · rw [pairUp_getD _ _ i h]
      exact List.getD_eq_default _ _ hi
    · rw [List.getD_eq_default _ _ (by rw [pairUp_length]; omega)]

/-- Claim C8, witness: past the source side's filtered length the source
element of the pair is `""`. -/
theorem c8_witness :
    ((get_parallel_texts_core [] [PyVal.str "x"]).getD 0 ("", "")).1 = "" :=
  (c8_output_shape [] [PyVal.str "x"]).2.2.1 0 (by decide)

/-- Claim C9: for equal-length sequences of non-empty strings, the output
has the common length and pair `i` is
`(format_hebrew (H[i]), strip(E[i]))`. -/
theorem c9_equal_length_alignment (H E : List String)
    (hlen : H.length = E.length)
    (hH : ∀ s ∈ H, s ≠ "") (hE : ∀ s ∈ E, s ≠ "") :
    get_parallel_texts (PyVal.list (H.map PyVal.str))
        (PyVal.list (E.map PyVal.str)) =
      Except.ok (get_parallel_texts_core (H.map PyVal.str)
        (E.map PyVal.str)) ∧
    (get_parallel_texts_core (H.map PyVal.str) (E.map PyVal.str)).length =
      H.length ∧
    (∀ i, i < H.length →
      (get_parallel_texts_core (H.map PyVal.str) (E.map PyVal.str)).getD i
          ("", "") =
        (format_hebrew (H.getD i ""), pyStrip (E.getD i ""))) := by
  have hsrc := filteredSource_of_strings H hH
  have htgt := filteredTarget_of_strings E hE
  refine ⟨rfl, ?_, ?_⟩
  · show (pairUp (filteredSource (H.map PyVal.str))
      (filteredTarget (E.map PyVal.str))).length = H.length
    rw [pairUp_length, hsrc, htgt]
    simp [hlen]
  · intro i hi
    show (pairUp (filteredSource (H.map PyVal.str))
      (filteredTarget (E.map PyVal.str))).getD i ("", "") = _
    have hmax : i < max (filteredSource (H.map PyVal.str)).length
        (filteredTarget (E.map PyVal.str)).length := by
      rw [hsrc, htgt]
      simp only [List.length_map]
      omega
    rw [pairUp_getD _ _ i hmax, hsrc, htgt,
      getD_map_empty format_hebrew rfl H i, getD_map_empty pyStrip rfl E i]

/-- Claim C9, witness at the one-verse lists `["h"]` and `["e"]`. -/
theorem c9_witness :
    (get_parallel_texts_core (["h"].map PyVal.str)
        (["e"].map PyVal.str)).getD 0 ("", "") =
      (format_hebrew ((["h"] : List String).getD 0 ""),
        pyStrip ((["e"] : List String).getD 0 "")) :=
  (c9_equal_length_alignment ["h"] ["e"] rfl (by decide) (by decide)).2.2 0
    (by decide)

/-- Claim C10: every pair produced by `get_parallel_texts` has a source
element that is either `""` (padding) or begins with the RTL marker
U+200F. -/
theorem c10_source_marker (hebrew english : PyVal)
    (r : List (String × String))
    (hr : get_parallel_texts hebrew english = Except.ok r) :
    ∀ p ∈ r, p.1 = "" ∨ p.1.toList.head? = some rlm := by
  obtain ⟨hs, es, rfl⟩ := get_parallel_texts_ok hr
  intro p hp
  obtain ⟨i, -, rfl⟩ := List.mem_map.mp hp
  show (filteredSource hs).getD i "" = "" ∨
    ((filteredSource hs).getD i "").toList.head? = some rlm
  by_cases h : i < (filteredSource hs).length
  · rw [List.getD_eq_getElem _ _ h]
    obtain ⟨v, hv⟩ := mem_filteredSource (List.getElem_mem h)
    rw [hv]
    exact format_hebrew_empty_or_rlm (pyStr v)
  · left
    exact List.getD_eq_default _ _ (Nat.le_of_not_lt h)

/-- Claim C10, witness: the single pair produced from Hebrew `["a"]` and
an empty English list begins with the marker. -/
theorem c10_witness :
    (("‏a", "") : String × String).1 = "" ∨
      (("‏a", "") : String × String).1.toList.head? = some rlm :=
  c10_source_marker (PyVal.list [PyVal.str "a"]) (PyVal.list [])
    [("‏a", "")] rfl ("‏a", "") (List.mem_cons_self _ _)

end SefariaSDK
